import Mathlib

/-!
Verification development for the pyroTorrent batched query builder and
result materializer.

The embedding follows the Python sources:
* src/model/rtorrent.py : the RTorrent class, its dynamically injected
  RPC methods (the remote method table) and get_download_list;
* src/config.py : the rtorrent_config mapping;
* src/pyrotorrent.py : the per-target cache flow of main_view_page.

Components whose code lives in the repository's lib/ directory (the
selector accumulator, the result materializer, the file tree builder)
are not present in the sources; those are modelled from the spec, as
marked on each definition.
-/

namespace Pyro

/-- Result of one remote XMLRPC call: either a plain value or an
application-level fault carrying a code and a message. -/
inductive RpcResult where
  | val (v : String)
  | fault (code : Int) (msg : String)
deriving DecidableEq

/-- The remote peer: a fixed behaviour mapping (remote method name,
positional arguments) to the result the remote returns for that call. -/
structure RemoteWorld where
  behave : String → List String → RpcResult

/-- Remote Connection batch primitive: issue every request of the list in
one round trip and collect the results positionally (the XMLRPC multicall
semantics assumed by the spec's Remote Connection). -/
def invoke_batch (w : RemoteWorld) (reqs : List (String × List String)) :
    List RpcResult :=
  reqs.map (fun r => w.behave r.1 r.2)

/-- Association-list lookup with propositional key equality. -/
def alookup {κ α : Type} [DecidableEq κ] : List (κ × α) → κ → Option α
  | [], _ => none
  | e :: rest, k => if e.1 = k then some e.2 else alookup rest k

/-- The remote method table of src/model/rtorrent.py (the module-level
dictionary named with a leading underscore there): local operation name
mapped to the remote method name.  Doc strings are omitted; they carry no
behaviour. -/
def rpc_methods : List (String × String) :=
  [("get_upload_throttle", "get_upload_rate"),
   ("set_upload_throttle", "set_upload_rate"),
   ("get_download_throttle", "get_download_rate"),
   ("set_download_throttle", "set_download_rate"),
   ("get_upload_rate", "get_up_rate"),
   ("get_upload_rate_total", "get_up_total"),
   ("get_download_rate", "get_down_rate"),
   ("get_download_rate_total", "get_down_total"),
   ("get_memory_usage", "get_memory_usage"),
   ("get_libtorrent_version", "system.library_version"),
   ("add_torrent", "load"),
   ("add_torrent_start", "load_start")]

/-- Invocation of a dynamically injected RTorrent method
(src/model/rtorrent.py method injection loop): the injected caller for an
entry (x, y) of the table forwards the positional arguments unchanged to
the remote method y and returns its result.  A name absent from the table
has no injected method, so the invocation does not happen and no remote
call is made (Python raises AttributeError); that case is `none`.  The
second component is the trace of remote invocations performed. -/
def callLocal (w : RemoteWorld) (lname : String) (args : List String) :
    Option (RpcResult × List (String × List String)) :=
  match alookup rpc_methods lname with
  | some remote => some (w.behave remote args, [(remote, args)])
  | none => none

/-- The tuple of accepted download-list types in
RTorrent.get_download_list (src/model/rtorrent.py). -/
def download_list_types : List String :=
  ["complete", "incomplete", "started", "stopped", "active", "hashing",
   "seeding", "", "default"]

/-- RTorrent.get_download_list (src/model/rtorrent.py): a type argument
outside the accepted tuple returns None (here `none`) without any remote
call; otherwise the remote download_list method is called once with the
type argument and its result returned.  The second component is the trace
of remote invocations performed. -/
def get_download_list (w : RemoteWorld) (t : String) :
    Option RpcResult × List (String × List String) :=
  if t ∈ download_list_types then
    (some (w.behave "download_list" [t]), [("download_list", [t])])
  else
    (none, [])

/-- A configuration value: a string or an integer. -/
inductive ConfigVal where
  | str (s : String)
  | num (n : Int)
deriving DecidableEq

/-- The rtorrent_config mapping of src/config.py: daemon name mapped to a
section mapping (here the http section) mapped to connection keys. -/
def rtorrent_config :
    List (String × List (String × List (String × ConfigVal))) :=
  [("sheeva",
    [("http",
      [("host", ConfigVal.str "192.168.1.70"),
       ("port", ConfigVal.num 80),
       ("url", ConfigVal.str "/RPC2")])])]

/-- Failure of a Python mapping subscript: KeyError on the given key. -/
inductive InitError where
  | keyError (k : String)
deriving DecidableEq

/-- Subscript access on a mapping, as Python performs it: the value at the
key, or KeyError. -/
def subscript {α : Type} (m : List (String × α)) (k : String) :
    Except InitError α :=
  match alookup m k with
  | some v => Except.ok v
  | none => Except.error (InitError.keyError k)

/-- RTorrent.init from src/model/rtorrent.py: it reads
rtorrent_config['host'], rtorrent_config['port'] and rtorrent_config['url']
directly at the top level of the configuration mapping (whose keys are the
daemon names), not under any daemon's name. -/
def rtorrent_init :
    Except InitError
      (List (String × List (String × ConfigVal)) ×
       List (String × List (String × ConfigVal)) ×
       List (String × List (String × ConfigVal))) := do
  let host ← subscript rtorrent_config "host"
  let port ← subscript rtorrent_config "port"
  let url ← subscript rtorrent_config "url"
  return (host, port, url)

/-- Modelled from the spec: a Selector records the intent to fetch one
local operation for one entity with positional arguments (spec section 3);
the accumulator code (lib/torrentrequester.py, lib/rtorrentquery.py) is
not among the sources. -/
structure Selector where
  entity : String
  op : String
  args : List String
deriving DecidableEq

/-- Errors of accumulation and materialization (spec section 7). -/
inductive OpError where
  | unknownOperation
  | partialResultMismatch
deriving DecidableEq

/-- A materialized field: the remote value, or the per-field error marker
recording a remote fault (spec section 4.4). -/
inductive Field where
  | val (v : String)
  | err (code : Int) (msg : String)
deriving DecidableEq

/-- Translate one positional remote result into a materialized field. -/
def toField : RpcResult → Field
  | RpcResult.val v => Field.val v
  | RpcResult.fault c m => Field.err c m

/-- A ResultRecord set: entity-id mapped to (local operation name, field)
pairs, in the order the operations were appended for that entity. -/
abbrev Records := List (String × List (String × Field))

/-- A method table: local operation name mapped to remote method name. -/
abbrev MethodTable := List (String × String)

/-- Modelled from the spec: the chained accumulation call of the Selector
Accumulator (spec section 4.3) whose code, lib/torrentrequester.py, is not
among the sources.  A recognized operation appends a Selector; an
operation absent from the method table fails with UnknownOperation at
accumulation time. -/
def chainCall (table : MethodTable) (st : Except OpError (List Selector))
    (entity op : String) (args : List String) :
    Except OpError (List Selector) := do
  let b ← st
  match alookup table op with
  | some _ => Except.ok (b ++ [⟨entity, op, args⟩])
  | none => Except.error OpError.unknownOperation

/-- Structural worker for groupByEntity: the fuel bounds the recursion
depth and always suffices when it is at least the list length. -/
def groupGo : Nat → List Selector → List (String × List Selector)
  | _, [] => []
  | 0, _ :: _ => []
  | fuel + 1, s :: rest =>
    (s.entity, s :: rest.filter (fun x => x.entity == s.entity)) ::
      groupGo fuel (rest.filter (fun x => !(x.entity == s.entity)))

/-- Modelled from the spec: group the selectors of a batch by entity-id,
preserving intra-group order and the order of first appearance of each
entity (spec section 4.4). -/
def groupByEntity (l : List Selector) : List (String × List Selector) :=
  groupGo l.length l

theorem groupGo_congr : ∀ (n m : Nat) (l : List Selector),
    l.length ≤ n → l.length ≤ m → groupGo n l = groupGo m l := by
  intro n
  induction n with
  | zero =>
    intro m l hn _
    match l, hn with
    | [], _ =>
      cases m with
      | zero => rfl
      | succ m => rfl
  | succ n ih =>
    intro m l hn hm
    match l with
    | [] =>
      cases m with
      | zero => rfl
      | succ m => rfl
    | s :: rest =>
      match m, hm with
      | m + 1, hm2 =>
        simp only [groupGo]
        congr 1
        have hf := List.length_filter_le
          (fun x => !(x.entity == s.entity)) rest
        have h1 : (rest.filter
            (fun x => !(x.entity == s.entity))).length ≤ n := by
          simp only [List.length_cons] at hn
          omega
        have h2 : (rest.filter
            (fun x => !(x.entity == s.entity))).length ≤ m := by
          simp only [List.length_cons] at hm2
          omega
        exact ih _ _ h1 h2

theorem groupByEntity_cons (s : Selector) (rest : List Selector) :
    groupByEntity (s :: rest) =
      (s.entity, s :: rest.filter (fun x => x.entity == s.entity)) ::
        groupByEntity (rest.filter (fun x => !(x.entity == s.entity))) := by
  show groupGo (s :: rest).length (s :: rest) = _
  simp only [List.length_cons, groupGo]
  congr 1
  exact groupGo_congr _ _ _ (List.length_filter_le _ _) (le_refl _)

/-- The selectors of a batch flattened back out of their entity groups, in
the order the materializer issues them. -/
def flattenGroups (batch : List Selector) : List Selector :=
  (groupByEntity batch).flatMap (fun g => g.2)

/-- Resolve a local operation name through the method table; the default
is never used on a batch that passed accumulation. -/
def resolveName (table : MethodTable) (op : String) : String :=
  (alookup table op).getD op

/-- The ordered remote-call request list of a batch (spec section 4.4):
the flattened selectors with local names resolved through the table. -/
def matReqs (table : MethodTable) (batch : List Selector) :
    List (String × List String) :=
  (flattenGroups batch).map (fun s => (resolveName table s.op, s.args))

/-- Modelled from the spec: re-assembly of the flat positional result list
into per-entity records (spec section 4.4): walk the entity groups,
consume from the front of the result list as many results as the group
has selectors, and deposit each under its selector's local name. -/
def assemble : List (String × List Selector) → List RpcResult → Records
  | [], _ => []
  | g :: rest, resps =>
    (g.1, (g.2.zip (resps.take g.2.length)).map
        (fun p => (p.1.op, toField p.2))) ::
      assemble rest (resps.drop g.2.length)

/-- The records a batch materializes to against a given remote world. -/
def matRecs (w : RemoteWorld) (table : MethodTable)
    (batch : List Selector) : Records :=
  assemble (groupByEntity batch) (invoke_batch w (matReqs table batch))

/-- Modelled from the spec: the Result Materializer (spec section 4.4),
whose code, lib/rtorrentquery.py, is not among the sources.  It resolves
every selector, issues the whole request list through invoke_batch in one
round trip, checks the result cardinality (PartialResultMismatch
otherwise) and re-assembles positionally.  Returns the outcome, the
number of invoke_batch round trips performed, and the request list that
was passed to invoke_batch. -/
def materializeT (w : RemoteWorld) (table : MethodTable)
    (batch : List Selector) :
    Except OpError Records × Nat × List (String × List String) :=
  if batch.all (fun s => (alookup table s.op).isSome) then
    let reqs := matReqs table batch
    let resps := invoke_batch w reqs
    if resps.length = reqs.length then
      (Except.ok (assemble (groupByEntity batch) resps), 1, reqs)
    else
      (Except.error OpError.partialResultMismatch, 1, reqs)
  else
    (Except.error OpError.unknownOperation, 0, [])

/-- Terminal materialization of an accumulator state: an accumulation
error propagates and performs zero round trips; otherwise the batch is
materialized. -/
def allT (w : RemoteWorld) (table : MethodTable)
    (st : Except OpError (List Selector)) : Except OpError Records × Nat :=
  match st with
  | Except.error e => (Except.error e, 0)
  | Except.ok b => ((materializeT w table b).1, (materializeT w table b).2.1)

/-- Field lookup in a materialized record set: the field stored for a
given entity under a given local operation name. -/
def fieldOf (recs : Records) (entity op : String) : Option Field :=
  match alookup recs entity with
  | some fields => alookup fields op
  | none => none

/-- Modelled from the spec: the request fingerprint (spec section 4.5), a
stable order-insensitive key over the entity-ids and the set of local
operation names per entity; the hashing code (the TorrentRequester hash
consumed by src/pyrotorrent.py) is not among the sources.  The spec asks
for a stable hash of the sorted entity-ids with the sorted operation
names per entity; the canonical order-insensitive form itself (entity
multiset paired with per-entity operation multisets) serves as that
stable key. -/
def fingerprint (batch : List Selector) :
    Multiset (String × Multiset String) :=
  ↑((batch.map (fun s => s.entity)).dedup.map
    (fun e =>
      (e, (↑((batch.filter (fun s => s.entity == e)).map
        (fun s => s.op)).dedup : Multiset String))))

/-- A cache key: either a request fingerprint or a target name (the two
kinds of keys src/pyrotorrent.py main_view_page looks up). -/
inductive CacheKey where
  | fp (f : Multiset (String × Multiset String))
  | name (s : String)
deriving DecidableEq

/-- The werkzeug SimpleCache state used by src/pyrotorrent.py: key mapped
to the stored value and its absolute expiry instant. -/
structure CacheState where
  entries : List (CacheKey × (Records × Nat))

/-- SimpleCache.get at the given instant: the stored value if its expiry
lies strictly in the future, otherwise a miss. -/
def cache_get (c : CacheState) (now : Nat) (k : CacheKey) :
    Option Records :=
  match alookup c.entries k with
  | some (v, exp) => if now < exp then some v else none
  | none => none

/-- SimpleCache.set at the given instant with a timeout: overwrite the
key with the value, expiring timeout units after now. -/
def cache_set (c : CacheState) (now : Nat) (k : CacheKey) (v : Records)
    (timeout : Nat) : CacheState :=
  ⟨(k, (v, now + timeout)) ::
    c.entries.filter (fun e => !(decide (e.1 = k)))⟩

/-- The per-target cache flow of main_view_page
(src/pyrotorrent.py lines 87-104): look the fingerprint up in the cache
and keep the value only if it is truthy (a Python empty list or None is
falsy); otherwise look the target name up and keep any non-None value;
otherwise materialize the batch, store the fresh result under the
fingerprint with timeout 10, and return it.  Returns the outcome, the
number of invoke_batch round trips performed, and the resulting cache. -/
def fetch_view (w : RemoteWorld) (table : MethodTable)
    (batch : List Selector) (c : CacheState) (now : Nat) (tname : String) :
    Except OpError Records × Nat × CacheState :=
  match (cache_get c now (CacheKey.fp (fingerprint batch))).getD [] with
  | r :: rs => (Except.ok (r :: rs), 0, c)
  | [] =>
    match cache_get c now (CacheKey.name tname) with
    | some v => (Except.ok v, 0, c)
    | none =>
      match materializeT w table batch with
      | (Except.ok recs, trips, _) =>
        (Except.ok recs, trips,
          cache_set c now (CacheKey.fp (fingerprint batch)) recs 10)
      | (Except.error e, trips, _) => (Except.error e, trips, c)

mutual

/-- Modelled from the spec: a PathNode of the Path Tree Builder (spec
sections 3 and 4.6), whose code, lib/filetree.py, is not among the
sources: name segment, leaf flag, size in bytes, completed chunks, total
chunks, and the children. -/
inductive PathNode where
  | node (name : String) (isLeaf : Bool) (size comp total : Nat)
      (children : PathForest)

/-- The children of a PathNode, as a forest. -/
inductive PathForest where
  | nil
  | cons (head : PathNode) (tail : PathForest)

end

/-- The name segment of a path node. -/
def nodeName : PathNode → String
  | PathNode.node nm _ _ _ _ _ => nm

/-- The size in bytes of a path node. -/
def nodeSize : PathNode → Nat
  | PathNode.node _ _ s _ _ _ => s

/-- The completed chunks of a path node. -/
def nodeComp : PathNode → Nat
  | PathNode.node _ _ _ c _ _ => c

/-- The total chunks of a path node. -/
def nodeTotal : PathNode → Nat
  | PathNode.node _ _ _ _ t _ => t

/-- Sum of the sizes of the nodes of a forest. -/
def sumSize : PathForest → Nat
  | PathForest.nil => 0
  | PathForest.cons x xs => nodeSize x + sumSize xs

/-- Sum of the completed chunks of the nodes of a forest. -/
def sumComp : PathForest → Nat
  | PathForest.nil => 0
  | PathForest.cons x xs => nodeComp x + sumComp xs

/-- Sum of the total chunks of the nodes of a forest. -/
def sumTotal : PathForest → Nat
  | PathForest.nil => 0
  | PathForest.cons x xs => nodeTotal x + sumTotal xs

/-- Find the child with the given name segment in a forest. -/
def findChild : PathForest → String → Option PathNode
  | PathForest.nil, _ => none
  | PathForest.cons x xs, nm =>
    if nodeName x = nm then some x else findChild xs nm

/-- Replace the children with the given name segment in a forest. -/
def replaceChild : PathForest → String → PathNode → PathForest
  | PathForest.nil, _, _ => PathForest.nil
  | PathForest.cons x xs, nm, c =>
    PathForest.cons (if nodeName x = nm then c else x)
      (replaceChild xs nm c)

/-- Append one node at the end of a forest. -/
def snocForest : PathForest → PathNode → PathForest
  | PathForest.nil, c => PathForest.cons c PathForest.nil
  | PathForest.cons x xs, c => PathForest.cons x (snocForest xs c)

/-- Input violations of the Path Tree Builder (spec section 4.6). -/
inductive TreeError where
  | malformedPathEntry
  | duplicatePathEntry
deriving DecidableEq

/-- One flat file entry handed to the Path Tree Builder: path components,
size in bytes, completed chunks, total chunks. -/
structure FEntry where
  path : List String
  size : Nat
  comp : Nat
  total : Nat

/-- Modelled from the spec: insertion of one entry into the tree (spec
section 4.6): walk or create intermediate nodes for every component but
the last, merging on existing name segments, and attach a leaf carrying
the entry's values at the final component; an empty component list is
MalformedPathEntry, an already-present final component is
DuplicatePathEntry. -/
def insertPath (n : PathNode) (path : List String) (sz cp tt : Nat) :
    Except TreeError PathNode :=
  match n, path with
  | _, [] => Except.error TreeError.malformedPathEntry
  | PathNode.node nm lf s c t ch, [last] =>
    match findChild ch last with
    | some _ => Except.error TreeError.duplicatePathEntry
    | none =>
      Except.ok (PathNode.node nm lf s c t
        (snocForest ch (PathNode.node last true sz cp tt PathForest.nil)))
  | PathNode.node nm lf s c t ch, seg :: rest =>
    match findChild ch seg with
    | some child => do
      let child2 ← insertPath child rest sz cp tt
      Except.ok (PathNode.node nm lf s c t (replaceChild ch seg child2))
    | none => do
      let child2 ← insertPath
        (PathNode.node seg false 0 0 0 PathForest.nil) rest sz cp tt
      Except.ok (PathNode.node nm lf s c t (snocForest ch child2))

mutual

/-- Modelled from the spec: the post-order aggregation pass (spec section
4.6): every non-leaf node's size, completed chunks and total chunks
become the sums over its aggregated children; leaves keep their direct
values. -/
def aggregate : PathNode → PathNode
  | PathNode.node nm lf s c t ch =>
    let ch2 := aggregateF ch
    if lf then PathNode.node nm lf s c t ch2
    else PathNode.node nm lf (sumSize ch2) (sumComp ch2) (sumTotal ch2) ch2

/-- Aggregation over a forest. -/
def aggregateF : PathForest → PathForest
  | PathForest.nil => PathForest.nil
  | PathForest.cons x xs => PathForest.cons (aggregate x) (aggregateF xs)

end

mutual

/-- The aggregation invariant (spec section 3): every non-leaf node
carries exactly the sums of its children's size, completed chunks and
total chunks, recursively. -/
def invB : PathNode → Bool
  | PathNode.node _ lf s c t ch =>
    (if lf then true
     else decide (s = sumSize ch) && decide (c = sumComp ch) &&
       decide (t = sumTotal ch)) && invFB ch

/-- The aggregation invariant over a forest. -/
def invFB : PathForest → Bool
  | PathForest.nil => true
  | PathForest.cons x xs => invB x && invFB xs

end

/-- The empty root node the builder starts from. -/
def emptyRoot : PathNode := PathNode.node "" false 0 0 0 PathForest.nil

/-- Insert a list of entries into a tree in order. -/
def insertAll (n : PathNode) : List FEntry → Except TreeError PathNode
  | [] => Except.ok n
  | e :: es => do
    let n2 ← insertPath n e.path e.size e.comp e.total
    insertAll n2 es

/-- Modelled from the spec: the Path Tree Builder (spec section 4.6):
insert every entry, then run the post-order aggregation pass. -/
def buildTree (es : List FEntry) : Except TreeError PathNode := do
  let t ← insertAll emptyRoot es
  return aggregate t

/-- C1: for every local operation name present in the remote method
table, invoking it on an RTorrent instance with positional arguments
performs exactly one remote invocation, of the remote name the table maps
it to, with the same positional arguments in the same order, and returns
that remote call's value.  The table itself is the fixed top-level
constant `rpc_methods`, populated once by the injection loop and never
written afterwards. -/
theorem rpc_table_dispatch (w : RemoteWorld) (lname remote : String)
    (args : List String) (h : alookup rpc_methods lname = some remote) :
    callLocal w lname args = some (w.behave remote args, [(remote, args)]) := by
  unfold callLocal
  rw [h]

/-- Witness for rpc_table_dispatch at get_upload_throttle, which the
table maps to get_upload_rate. -/
theorem rpc_table_dispatch_witness :
    callLocal ⟨fun n _ => RpcResult.val n⟩ "get_upload_throttle"
        ["7", "8"] =
      some (RpcResult.val "get_upload_rate",
        [("get_upload_rate", ["7", "8"])]) :=
  rpc_table_dispatch _ _ _ _ (by decide)

/-- C10: get_download_list returns None with no remote call for every
type argument outside the accepted set, and for every accepted type
argument performs exactly one remote download_list call with it and
returns its result. -/
theorem get_download_list_spec (w : RemoteWorld) (t : String) :
    (t ∉ download_list_types → get_download_list w t = (none, [])) ∧
    (t ∈ download_list_types →
      get_download_list w t =
        (some (w.behave "download_list" [t]), [("download_list", [t])])) := by
  constructor
  · intro h
    unfold get_download_list
    rw [if_neg h]
  · intro h
    unfold get_download_list
    rw [if_pos h]

/-- Witness for get_download_list_spec at the accepted type seeding and
at a rejected type. -/
theorem get_download_list_spec_witness :
    get_download_list ⟨fun n _ => RpcResult.val n⟩ "seeding" =
      (some (RpcResult.val "download_list"),
        [("download_list", ["seeding"])]) ∧
    get_download_list ⟨fun n _ => RpcResult.val n⟩ "bogus" = (none, []) :=
  ⟨(get_download_list_spec _ "seeding").2 (by decide),
   (get_download_list_spec _ "bogus").1 (by decide)⟩

/-- C9: constructing the RTorrent object fails with KeyError on the key
host, although the daemon sheeva is present in the configuration under
its name: the constructor reads rtorrent_config['host'] at the top level
of the mapping instead of under the daemon's name. -/
theorem rtorrent_init_keyerror :
    rtorrent_init = Except.error (InitError.keyError "host") ∧
    alookup rtorrent_config "sheeva" ≠ none := by
  exact ⟨by rfl, by decide⟩

/-- C7: an operation name absent from the method table fails with
UnknownOperation already at accumulation time when used in a chain, the
materialization of such a failed chain performs zero invoke_batch round
trips, and direct invocation on RTorrent of a name absent from the
injected table performs no remote call at all. -/
theorem unknown_operation_fails_fast (w : RemoteWorld)
    (table : MethodTable) (st : List Selector) (entity op : String)
    (args : List String) (h : alookup table op = none)
    (h2 : alookup rpc_methods op = none) :
    chainCall table (Except.ok st) entity op args =
      Except.error OpError.unknownOperation ∧
    allT w table (chainCall table (Except.ok st) entity op args) =
      (Except.error OpError.unknownOperation, 0) ∧
    callLocal w op args = none := by
  have hc : chainCall table (Except.ok st) entity op args =
      Except.error OpError.unknownOperation := by
    simp only [chainCall, Except.bind, bind, h]
  refine ⟨hc, ?_, ?_⟩
  · rw [hc]
    rfl
  · unfold callLocal
    rw [h2]

/-- Witness for unknown_operation_fails_fast at the unknown operation
name frobnicate against the injected method table. -/
theorem unknown_operation_fails_fast_witness :
    chainCall rpc_methods (Except.ok []) "" "frobnicate" [] =
      Except.error OpError.unknownOperation ∧
    allT ⟨fun n _ => RpcResult.val n⟩ rpc_methods
      (chainCall rpc_methods (Except.ok []) "" "frobnicate" []) =
      (Except.error OpError.unknownOperation, 0) ∧
    callLocal ⟨fun n _ => RpcResult.val n⟩ "frobnicate" [] = none :=
  unknown_operation_fails_fast _ _ _ _ _ _ (by decide) (by decide)

theorem flattenGroups_perm (l : List Selector) : (flattenGroups l).Perm l := by
  have H : ∀ n (l : List Selector), l.length = n →
      (flattenGroups l).Perm l := by
    intro n
    induction n using Nat.strong_induction_on with
    | _ n ih =>
      intro l hn
      match l with
      | [] => exact List.Perm.nil
      | s :: rest =>
        have hN : (rest.filter (fun x => !(x.entity == s.entity))).length <
            n := by
          rw [← hn]
          simp only [List.length_cons]
          exact Nat.lt_succ_of_le (List.length_filter_le _ _)
        have h1 : (flattenGroups
              (rest.filter (fun x => !(x.entity == s.entity)))).Perm
            (rest.filter (fun x => !(x.entity == s.entity))) :=
          ih _ hN _ rfl
        have h2 : flattenGroups (s :: rest) =
            s :: (rest.filter (fun x => x.entity == s.entity) ++
              flattenGroups
                (rest.filter (fun x => !(x.entity == s.entity)))) := by
          rw [flattenGroups, groupByEntity_cons]
          simp [flattenGroups]
        rw [h2]
        refine List.Perm.cons s ?_
        exact ((List.Perm.append_left _ h1).trans
          (List.filter_append_perm _ rest))
  exact H l.length l rfl

theorem flattenGroups_length (l : List Selector) :
    (flattenGroups l).length = l.length :=
  (flattenGroups_perm l).length_eq

theorem matReqs_length (table : MethodTable) (batch : List Selector) :
    (matReqs table batch).length = batch.length := by
  rw [matReqs, List.length_map, flattenGroups_length]

/-- C2: materialization of a selector batch performs exactly one
invoke_batch round trip, the request list passed to invoke_batch has as
many entries as the batch has selectors across all entities, and the
result list invoke_batch yields has the same length and the same order
as that request list (the i-th result answers the i-th request). -/
theorem materialize_one_round_trip (w : RemoteWorld) (table : MethodTable)
    (batch : List Selector)
    (h : batch.all (fun s => (alookup table s.op).isSome) = true) :
    materializeT w table batch =
      (Except.ok (matRecs w table batch), 1, matReqs table batch) ∧
    (matReqs table batch).length = batch.length ∧
    (invoke_batch w (matReqs table batch)).length =
      (matReqs table batch).length ∧
    ∀ i : Nat, (invoke_batch w (matReqs table batch))[i]? =
      ((matReqs table batch)[i]?).map
        (fun r : String × List String => w.behave r.1 r.2) := by
  have hlen : (invoke_batch w (matReqs table batch)).length =
      (matReqs table batch).length := by
    simp [invoke_batch]
  refine ⟨?_, matReqs_length table batch, hlen, ?_⟩
  · unfold materializeT
    rw [if_pos h, if_pos hlen]
    rfl
  · intro i
    simp [invoke_batch]

/-- Sample remote world used by concrete witnesses. -/
def w0 : RemoteWorld :=
  ⟨fun n as => RpcResult.val (String.intercalate "," (n :: as))⟩

/-- Sample method table used by concrete witnesses. -/
def t0 : MethodTable := [("op1", "rop1"), ("op2", "rop2")]

/-- Sample selector batch over two entities used by concrete witnesses. -/
def b0 : List Selector :=
  [⟨"A", "op1", []⟩, ⟨"B", "op2", ["x"]⟩, ⟨"A", "op2", []⟩]

/-- Witness for materialize_one_round_trip on a concrete three-selector
batch over two entities. -/
theorem materialize_one_round_trip_witness :
    materializeT w0 t0 b0 =
      (Except.ok (matRecs w0 t0 b0), 1, matReqs t0 b0) ∧
    (matReqs t0 b0).length = b0.length :=
  ⟨(materialize_one_round_trip w0 t0 b0 (by decide)).1,
   (materialize_one_round_trip w0 t0 b0 (by decide)).2.1⟩

theorem zip_map_self {α β : Type} (f : α → β) (l : List α) :
    l.zip (l.map f) = l.map (fun a => (a, f a)) := by
  induction l with
  | nil => rfl
  | cons a rest ih => simp [ih]

theorem assemble_map (f : Selector → RpcResult)
    (gs : List (String × List Selector)) :
    assemble gs ((gs.flatMap (fun g => g.2)).map f) =
      gs.map (fun g =>
        (g.1, g.2.map (fun s => (s.op, toField (f s))))) := by
  induction gs with
  | nil => rfl
  | cons g rest ih =>
    rw [List.flatMap_cons, List.map_append, assemble,
      List.take_left' (by simp), List.drop_left' (by simp),
      zip_map_self, List.map_map, ih]
    rfl

theorem alookup_map_value {κ α β : Type} [DecidableEq κ] (h : α → β)
    (l : List (κ × α)) (k : κ) :
    alookup (l.map (fun p => (p.1, h p.2))) k = (alookup l k).map h := by
  induction l with
  | nil => rfl
  | cons a rest ih =>
    simp only [List.map_cons, alookup]
    by_cases hk : a.1 = k
    · rw [if_pos hk, if_pos hk]
      rfl
    · rw [if_neg hk, if_neg hk, ih]

theorem groupByEntity_alookup (l : List Selector) (e : String)
    (he : ∃ x ∈ l, x.entity = e) :
    alookup (groupByEntity l) e =
      some (l.filter (fun x => x.entity == e)) := by
  have H : ∀ n (l : List Selector), l.length = n →
      (∃ x ∈ l, x.entity = e) →
      alookup (groupByEntity l) e =
        some (l.filter (fun x => x.entity == e)) := by
    intro n
    induction n using Nat.strong_induction_on with
    | _ n ih =>
      intro l hn he
      match l with
      | [] =>
        obtain ⟨x, hx, _⟩ := he
        cases hx
      | s :: rest =>
        rw [groupByEntity_cons]
        by_cases hse : s.entity = e
        · simp only [alookup]
          rw [if_pos hse]
          subst hse
          rw [List.filter_cons_of_pos (by simp)]
        · simp only [alookup]
          rw [if_neg hse]
          have hN : (rest.filter
              (fun x => !(x.entity == s.entity))).length < n := by
            rw [← hn]
            simp only [List.length_cons]
            exact Nat.lt_succ_of_le (List.length_filter_le _ _)
          have he2 : ∃ x ∈ rest.filter
              (fun x => !(x.entity == s.entity)), x.entity = e := by
            obtain ⟨x, hx, hxe⟩ := he
            cases hx with
            | head => exact absurd hxe hse
            | tail _ hmem =>
              refine ⟨x, List.mem_filter.mpr ⟨hmem, ?_⟩, hxe⟩
              simp only [Bool.not_eq_eq_eq_not, Bool.not_true,
                beq_eq_false_iff_ne, ne_eq]
              rw [hxe]
              exact fun hc => hse hc.symm
          rw [ih _ hN _ rfl he2]
          congr 1
          rw [List.filter_cons_of_neg (by simpa using hse),
            List.filter_filter]
          apply List.filter_congr
          intro x hx
          by_cases hxe : x.entity = e
          · have : ¬(x.entity == s.entity) = true := by
              simp only [beq_iff_eq]
              rw [hxe]
              exact fun hc => hse hc.symm
            simp [hxe, this]
            exact fun hc => hse hc.symm
          · simp [hxe]
  exact H l.length l rfl he

theorem matRecs_eq (w : RemoteWorld) (table : MethodTable)
    (batch : List Selector) :
    matRecs w table batch = (groupByEntity batch).map
      (fun g => (g.1, g.2.map (fun s =>
        (s.op, toField (w.behave (resolveName table s.op) s.args))))) := by
  rw [matRecs, matReqs, flattenGroups, invoke_batch, List.map_map]
  exact assemble_map _ _

theorem alookup_filter_map {β : Type} (g : Selector → β)
    (l : List Selector) (s : Selector) (hs : s ∈ l)
    (hnd : (l.map (fun x => (x.entity, x.op))).Nodup) :
    alookup ((l.filter (fun x => x.entity == s.entity)).map
      (fun x => (x.op, g x))) s.op = some (g s) := by
  induction l with
  | nil => cases hs
  | cons a rest ih =>
    by_cases hpair : (a.entity, a.op) = (s.entity, s.op)
    · have ha : a.entity = s.entity := congrArg Prod.fst hpair
      have ho : a.op = s.op := congrArg Prod.snd hpair
      have hnotin : (a.entity, a.op) ∉
          rest.map (fun x => (x.entity, x.op)) :=
        (List.nodup_cons.mp hnd).1
      rw [List.filter_cons_of_pos (by simp [ha])]
      simp only [List.map_cons, alookup]
      rw [if_pos ho]
      cases hs with
      | head => rfl
      | tail _ hmem =>
        exact absurd (hpair ▸ List.mem_map_of_mem _ hmem) hnotin
    · have hs2 : s ∈ rest := by
        cases hs with
        | head => exact absurd rfl hpair
        | tail _ hmem => exact hmem
      by_cases hent : a.entity = s.entity
      · have hop : a.op ≠ s.op := fun hcontra =>
          hpair (by rw [hent, hcontra])
        rw [List.filter_cons_of_pos (by simp [hent])]
        simp only [List.map_cons, alookup]
        rw [if_neg hop]
        exact ih hs2 (List.Nodup.of_cons hnd)
      · rw [List.filter_cons_of_neg (by simpa using hent)]
        exact ih hs2 (List.Nodup.of_cons hnd)

theorem matRecs_field (w : RemoteWorld) (table : MethodTable)
    (batch : List Selector) (s : Selector) (hs : s ∈ batch)
    (hnd : (batch.map (fun x => (x.entity, x.op))).Nodup) :
    fieldOf (matRecs w table batch) s.entity s.op =
      some (toField (w.behave (resolveName table s.op) s.args)) := by
  have h1 : alookup (groupByEntity batch) s.entity =
      some (batch.filter (fun x => x.entity == s.entity)) :=
    groupByEntity_alookup batch s.entity ⟨s, hs, rfl⟩
  rw [matRecs_eq]
  unfold fieldOf
  rw [alookup_map_value, h1]
  exact alookup_filter_map _ batch s hs hnd

/-- C8: in a batch whose remote calls all yield plain values except for
exactly one selector, which yields a fault, materialization still
succeeds as a whole: the fault is recorded as a per-field error marker
under that selector's local operation name in its entity's record, and
every other selector materializes its value unchanged. -/
theorem materialize_partial_fault (w : RemoteWorld) (table : MethodTable)
    (batch : List Selector) (j : Nat) (hj : j < batch.length)
    (c : Int) (m : String) (vals : Nat → String)
    (hres : batch.all (fun s => (alookup table s.op).isSome) = true)
    (hnd : (batch.map (fun x => (x.entity, x.op))).Nodup)
    (hfault : w.behave (resolveName table (batch[j]).op)
      (batch[j]).args = RpcResult.fault c m)
    (hok : ∀ k (hk : k < batch.length), k ≠ j →
      w.behave (resolveName table (batch[k]).op) (batch[k]).args =
        RpcResult.val (vals k)) :
    (materializeT w table batch).1 = Except.ok (matRecs w table batch) ∧
    fieldOf (matRecs w table batch) (batch[j]).entity (batch[j]).op =
      some (Field.err c m) ∧
    ∀ k (hk : k < batch.length), k ≠ j →
      fieldOf (matRecs w table batch) (batch[k]).entity
        (batch[k]).op = some (Field.val (vals k)) := by
  refine ⟨?_, ?_, ?_⟩
  · rw [(materialize_one_round_trip w table batch hres).1]
  · rw [matRecs_field w table batch (batch[j]) (List.getElem_mem hj) hnd,
      hfault]
    rfl
  · intro k hk hkj
    rw [matRecs_field w table batch (batch[k]) (List.getElem_mem hk) hnd,
      hok k hk hkj]
    rfl

/-- Sample remote world for the partial-fault witness: it faults exactly
on the remote call (rop2, [x]) and answers every other call with a plain
value. -/
def w8 : RemoteWorld :=
  ⟨fun n as =>
    if n = "rop2" ∧ as = ["x"] then RpcResult.fault 1 "boom"
    else RpcResult.val n⟩

/-- Witness for materialize_partial_fault: in the three-selector batch
b0 the middle selector (entity B, operation op2) faults; the whole batch
still materializes, B's op2 carries the error marker and the remaining
selectors carry their values. -/
theorem materialize_partial_fault_witness :
    (materializeT w8 t0 b0).1 = Except.ok (matRecs w8 t0 b0) ∧
    fieldOf (matRecs w8 t0 b0) "B" "op2" = some (Field.err 1 "boom") ∧
    fieldOf (matRecs w8 t0 b0) "A" "op1" = some (Field.val "rop1") := by
  have h := materialize_partial_fault w8 t0 b0 1 (by decide) 1 "boom"
    (fun k => if k = 0 then "rop1" else "rop2") (by decide) (by decide)
    (by decide) (by decide)
  exact ⟨h.1, h.2.1, h.2.2 0 (by decide) (by decide)⟩

theorem fingerprint_perm {b1 b2 : List Selector} (h : b1.Perm b2) :
    fingerprint b1 = fingerprint b2 := by
  unfold fingerprint
  have hmap : (b2.map (fun s => s.entity)).dedup.map
      (fun e =>
        (e, (↑((b2.filter (fun s => s.entity == e)).map
          (fun s => s.op)).dedup : Multiset String))) =
      (b2.map (fun s => s.entity)).dedup.map
      (fun e =>
        (e, (↑((b1.filter (fun s => s.entity == e)).map
          (fun s => s.op)).dedup : Multiset String))) :=
    List.map_congr_left (fun e _ =>
      congrArg _ (Quot.sound (Setoid.symm
        (((h.filter (fun s => s.entity == e)).map
          (fun s => s.op)).dedup))))
  rw [hmap]
  exact Quot.sound (((h.map (fun s => s.entity)).dedup).map _)

theorem fetch_view_hit (w : RemoteWorld) (table : MethodTable)
    (batch : List Selector) (c : CacheState) (now : Nat) (tname : String)
    (r : String × List (String × Field)) (rs : Records)
    (hget : cache_get c now (CacheKey.fp (fingerprint batch)) =
      some (r :: rs)) :
    fetch_view w table batch c now tname =
      (Except.ok (r :: rs), 0, c) := by
  unfold fetch_view
  rw [hget]
  rfl

theorem fetch_view_miss (w : RemoteWorld) (table : MethodTable)
    (batch : List Selector) (c : CacheState) (now : Nat) (tname : String)
    (hm1 : cache_get c now (CacheKey.fp (fingerprint batch)) = none)
    (hm2 : cache_get c now (CacheKey.name tname) = none)
    (hres : batch.all (fun s => (alookup table s.op).isSome) = true) :
    fetch_view w table batch c now tname =
      (Except.ok (matRecs w table batch), 1,
        cache_set c now (CacheKey.fp (fingerprint batch))
          (matRecs w table batch) 10) := by
  unfold fetch_view
  rw [hm1, hm2, (materialize_one_round_trip w table batch hres).1]
  rfl

theorem matRecs_ne_nil (w : RemoteWorld) (table : MethodTable)
    {batch : List Selector} (h : batch ≠ []) :
    matRecs w table batch ≠ [] := by
  match batch, h with
  | s :: rest, _ =>
    rw [matRecs_eq, groupByEntity_cons]
    simp

theorem cache_get_set (c : CacheState) (t1 t2 : Nat) (k : CacheKey)
    (v : Records) (timeout : Nat) (h : t2 < t1 + timeout) :
    cache_get (cache_set c t1 k v timeout) t2 k = some v := by
  unfold cache_get cache_set
  rw [alookup, if_pos rfl]
  exact if_pos h

/-- C3: two selector batches over the same entities requesting the same
operations and differing only in the order of the chained calls have
equal fingerprints, and the second request cache-hits against the first
one's stored result within the TTL: the first request materializes (one
invoke_batch round trip) and stores, the second returns the same records
with zero round trips. -/
theorem fingerprint_reorder_cache_hit (w : RemoteWorld)
    (table : MethodTable) (b1 b2 : List Selector) (c : CacheState)
    (t1 t2 : Nat) (tname : String)
    (hperm : b1.Perm b2) (hne : b1 ≠ [])
    (hres : b1.all (fun s => (alookup table s.op).isSome) = true)
    (hm1 : cache_get c t1 (CacheKey.fp (fingerprint b1)) = none)
    (hm2 : cache_get c t1 (CacheKey.name tname) = none)
    (httl : t2 < t1 + 10) :
    fingerprint b1 = fingerprint b2 ∧
    fetch_view w table b1 c t1 tname =
      (Except.ok (matRecs w table b1), 1,
        cache_set c t1 (CacheKey.fp (fingerprint b1))
          (matRecs w table b1) 10) ∧
    fetch_view w table b2
        (cache_set c t1 (CacheKey.fp (fingerprint b1))
          (matRecs w table b1) 10) t2 tname =
      (Except.ok (matRecs w table b1), 0,
        cache_set c t1 (CacheKey.fp (fingerprint b1))
          (matRecs w table b1) 10) := by
  have hfp : fingerprint b1 = fingerprint b2 := fingerprint_perm hperm
  refine ⟨hfp, fetch_view_miss w table b1 c t1 tname hm1 hm2 hres, ?_⟩
  have hget : cache_get
      (cache_set c t1 (CacheKey.fp (fingerprint b1))
        (matRecs w table b1) 10) t2 (CacheKey.fp (fingerprint b2)) =
      some (matRecs w table b1) := by
    rw [← hfp]
    exact cache_get_set c t1 t2 _ _ 10 httl
  cases hv : matRecs w table b1 with
  | nil => exact absurd hv (matRecs_ne_nil w table hne)
  | cons r rs =>
    rw [hv] at hget
    exact fetch_view_hit w table b2 _ t2 tname r rs hget

/-- Sample two-selector batch over one entity, used by the C3 witness. -/
def bA : List Selector := [⟨"A", "op1", []⟩, ⟨"A", "op2", []⟩]

/-- The batch bA with its two chained calls in the opposite order. -/
def bB : List Selector := [⟨"A", "op2", []⟩, ⟨"A", "op1", []⟩]

/-- Witness for fingerprint_reorder_cache_hit: the chains op1-then-op2
and op2-then-op1 on entity A, against an empty cache at time 0 and a
second request at time 3. -/
theorem fingerprint_reorder_cache_hit_witness :
    fingerprint bA = fingerprint bB ∧
    fetch_view w0 t0 bA ⟨[]⟩ 0 "sheeva" =
      (Except.ok (matRecs w0 t0 bA), 1,
        cache_set ⟨[]⟩ 0 (CacheKey.fp (fingerprint bA))
          (matRecs w0 t0 bA) 10) ∧
    fetch_view w0 t0 bB
        (cache_set ⟨[]⟩ 0 (CacheKey.fp (fingerprint bA))
          (matRecs w0 t0 bA) 10) 3 "sheeva" =
      (Except.ok (matRecs w0 t0 bA), 0,
        cache_set ⟨[]⟩ 0 (CacheKey.fp (fingerprint bA))
          (matRecs w0 t0 bA) 10) :=
  fingerprint_reorder_cache_hit w0 t0 bA bB ⟨[]⟩ 0 3 "sheeva"
    (by decide) (by decide) (by decide) (by rfl) (by rfl) (by decide)

/-- C4, amended: a cached fingerprint entry within the TTL is returned
with zero round trips only when the cached value is truthy (non-empty);
on a miss at both the fingerprint and the target-name key the
materializer is invoked, its fresh result stored under the fingerprint,
and returned. -/
theorem cache_hit_requires_truthy (w : RemoteWorld) (table : MethodTable)
    (batch : List Selector) (c : CacheState) (now : Nat) (tname : String) :
    (∀ r rs, cache_get c now (CacheKey.fp (fingerprint batch)) =
        some (r :: rs) →
      fetch_view w table batch c now tname =
        (Except.ok (r :: rs), 0, c)) ∧
    (cache_get c now (CacheKey.fp (fingerprint batch)) = none →
      cache_get c now (CacheKey.name tname) = none →
      batch.all (fun s => (alookup table s.op).isSome) = true →
      fetch_view w table batch c now tname =
        (Except.ok (matRecs w table batch), 1,
          cache_set c now (CacheKey.fp (fingerprint batch))
            (matRecs w table batch) 10)) :=
  ⟨fun r rs hget => fetch_view_hit w table batch c now tname r rs hget,
   fun hm1 hm2 hres => fetch_view_miss w table batch c now tname hm1 hm2 hres⟩

/-- Cache state holding a truthy record set under the fingerprint of b0,
stored at time 0 with the 10-unit timeout. -/
def cW : CacheState :=
  ⟨[(CacheKey.fp (fingerprint b0), ([("A", [("op1", Field.val "v")])], 10))]⟩

/-- Witness for cache_hit_requires_truthy: a truthy cached value within
the TTL is returned unchanged with zero round trips. -/
theorem cache_hit_requires_truthy_witness :
    fetch_view w0 t0 b0 cW 5 "sheeva" =
      (Except.ok [("A", [("op1", Field.val "v")])], 0, cW) :=
  (cache_hit_requires_truthy w0 t0 b0 cW 5 "sheeva").1 _ _ (by decide)

/-- Cache state holding an empty (falsy) record set under the
fingerprint of b0, stored at time 0 with the 10-unit timeout. -/
def c4 : CacheState := ⟨[(CacheKey.fp (fingerprint b0), ([], 10))]⟩

/-- Counterexample to C4 as stated: at time 5 the fingerprint of b0 has a
cache entry well within the TTL whose cached value is the empty result
set, yet the request does not return with zero round trips: the code's
truthiness test treats the empty cached value as a miss and performs one
fresh invoke_batch round trip. -/
theorem cache_empty_entry_misses :
    cache_get c4 5 (CacheKey.fp (fingerprint b0)) = some [] ∧
    (fetch_view w0 t0 b0 c4 5 "sheeva").2.1 = 1 := by
  exact ⟨by decide, by decide⟩

/-- C5: a fingerprint whose entry was stored more than the fixed 10-unit
TTL ago is treated as a miss: the repeated request triggers a fresh
materialization (exactly one new invoke_batch round trip) and the fresh
result is stored anew under the fingerprint with the 10-unit timeout. -/
theorem cache_ttl_expiry (w : RemoteWorld) (table : MethodTable)
    (batch : List Selector) (c : CacheState) (now tst : Nat)
    (tname : String) (v : Records)
    (hstore : alookup c.entries (CacheKey.fp (fingerprint batch)) =
      some (v, tst + 10))
    (hexp : tst + 10 < now)
    (hm2 : cache_get c now (CacheKey.name tname) = none)
    (hres : batch.all (fun s => (alookup table s.op).isSome) = true) :
    fetch_view w table batch c now tname =
      (Except.ok (matRecs w table batch), 1,
        cache_set c now (CacheKey.fp (fingerprint batch))
          (matRecs w table batch) 10) := by
  have hm1 : cache_get c now (CacheKey.fp (fingerprint batch)) = none := by
    unfold cache_get
    rw [hstore]
    exact if_neg (by omega)
  exact fetch_view_miss w table batch c now tname hm1 hm2 hres

/-- Cache state whose entry for the fingerprint of b0 was stored at time
0 with the 10-unit timeout, so it is expired at any time past 10. -/
def c5 : CacheState :=
  ⟨[(CacheKey.fp (fingerprint b0),
    ([("A", [("op1", Field.val "v")])], 10))]⟩

/-- Witness for cache_ttl_expiry: at time 11 the entry stored at time 0
is expired, so the request materializes afresh, with one round trip, and
stores the result. -/
theorem cache_ttl_expiry_witness :
    fetch_view w0 t0 b0 c5 11 "sheeva" =
      (Except.ok (matRecs w0 t0 b0), 1,
        cache_set c5 11 (CacheKey.fp (fingerprint b0))
          (matRecs w0 t0 b0) 10) :=
  cache_ttl_expiry w0 t0 b0 c5 11 0 "sheeva"
    [("A", [("op1", Field.val "v")])] (by decide) (by decide) (by decide)
    (by decide)

mutual

theorem inv_aggregate (t : PathNode) : invB (aggregate t) = true := by
  match t with
  | PathNode.node nm lf s c tt ch =>
    cases lf with
    | true => simp [aggregate, invB, invF_aggregateF ch]
    | false => simp [aggregate, invB, invF_aggregateF ch]

theorem invF_aggregateF (f : PathForest) : invFB (aggregateF f) = true := by
  match f with
  | PathForest.nil => rfl
  | PathForest.cons x xs =>
    simp [aggregateF, invFB, inv_aggregate x, invF_aggregateF xs]

end

/-- The reference entries of the tree-builder example: a/b.txt of size
100 with 2 of 2 chunks, a/c.txt of size 50 with 1 of 2 chunks, and d.txt
of size 10 with 1 of 1 chunks. -/
def c6entries : List FEntry :=
  [⟨["a", "b.txt"], 100, 2, 2⟩, ⟨["a", "c.txt"], 50, 1, 2⟩,
   ⟨["d.txt"], 10, 1, 1⟩]

/-- The tree the builder produces for c6entries: the root has exactly the
children a (aggregated size 150, completed 3, total 4) and the leaf d.txt
(size 10), and a has exactly the leaf children b.txt and c.txt. -/
def c6tree : PathNode :=
  PathNode.node "" false 160 4 5
    (PathForest.cons
      (PathNode.node "a" false 150 3 4
        (PathForest.cons
          (PathNode.node "b.txt" true 100 2 2 PathForest.nil)
          (PathForest.cons
            (PathNode.node "c.txt" true 50 1 2 PathForest.nil)
            PathForest.nil)))
      (PathForest.cons (PathNode.node "d.txt" true 10 1 1 PathForest.nil)
        PathForest.nil))

/-- C6: every tree the Path Tree Builder returns satisfies the
aggregation invariant (each non-leaf node's size, completed chunks and
total chunks are the sums over its children), and on the reference
entries the builder returns exactly the reference tree: root children a
(size 150, completed 3, total 4) and leaf d.txt (size 10), with a having
exactly the leaf children b.txt and c.txt. -/
theorem tree_invariant_and_example :
    (∀ es r, buildTree es = Except.ok r → invB r = true) ∧
    buildTree c6entries = Except.ok c6tree := by
  constructor
  · intro es r h
    unfold buildTree at h
    cases hins : insertAll emptyRoot es with
    | error e =>
      rw [hins] at h
      cases h
    | ok t =>
      rw [hins] at h
      have h2 : Except.ok (aggregate t) = Except.ok r := h
      injection h2 with h3
      rw [← h3]
      exact inv_aggregate t
  · rfl

/-- Witness for tree_invariant_and_example: the reference tree satisfies
the aggregation invariant. -/
theorem tree_invariant_and_example_witness : invB c6tree = true :=
  tree_invariant_and_example.1 c6entries c6tree (by rfl)

end Pyro
